import Mathlib

/-!
Verification of the DeepThink chat client (`machine_learning/DeepThink/gui.py`).

We shallowly embed the parts of the program the specification talks about:

* the incremental JSON extraction loop of `DeepSeekEngineerGUI.process_message`
  (a state machine over arriving content tokens),
* the file helpers `create_file` and `apply_diff_edit` over a model filesystem,
* the payload normalisation, per-item executor and reporting of
  `DeepSeekEngineerGUI.handle_assistant_response`,
* the balance query `DeepSeekEngineerGUI.get_api_balance`,
* the absolute-path rewrite `os.path.relpath` used before file creation.

Python strings are modelled as `List Char`; `json.loads` is modelled by an
executable JSON syntax checker `jsonValid` following RFC 8259 as accepted by
Python's `json` module.
-/

namespace DeepThink

/-! ### A JSON validity checker, modelling acceptance of Python `json.loads` -/

/-- JSON insignificant whitespace: space, tab, line feed, carriage return. -/
def isJsonWs (c : Char) : Bool :=
  c = ' ' || c = '\t' || c = '\n' || c = '\r'

/-- Drop leading JSON whitespace. -/
def skipWs (cs : List Char) : List Char :=
  cs.dropWhile isJsonWs

/-- Hexadecimal digit test for `\uXXXX` escapes. -/
def isHexDig (c : Char) : Bool :=
  c.isDigit || ('a' ≤ c && c ≤ 'f') || ('A' ≤ c && c ≤ 'F')

/-- Parse the body of a JSON string after the opening quote; return the input
remaining after the closing quote.  Control characters below `0x20` are
rejected, escape sequences follow RFC 8259 (Python strict mode). -/
def parseStringBody : Nat → List Char → Option (List Char)
  | 0, _ => none
  | _ + 1, [] => none
  | f + 1, c :: rest =>
    if c = '"' then some rest
    else if c = '\\' then
      match rest with
      | [] => none
      | e :: rest2 =>
        if e = '"' || e = '\\' || e = '/' || e = 'b' || e = 'f' ||
            e = 'n' || e = 'r' || e = 't' then
          parseStringBody f rest2
        else if e = 'u' then
          match rest2 with
          | h1 :: h2 :: h3 :: h4 :: rest3 =>
            if isHexDig h1 && isHexDig h2 && isHexDig h3 && isHexDig h4 then
              parseStringBody f rest3
            else none
          | _ => none
        else none
    else if c.toNat < 0x20 then none
    else parseStringBody f rest

/-- Parse the integer part of a JSON number: `0`, or a nonzero digit followed
by digits (leading zeros rejected, as in Python `json`). -/
def parseIntPart : List Char → Option (List Char)
  | [] => none
  | c :: rest =>
    if c = '0' then some rest
    else if c.isDigit then some (rest.dropWhile Char.isDigit)
    else none

/-- Parse an optional fraction part `.digits`. -/
def parseFracPart (cs : List Char) : Option (List Char) :=
  match cs with
  | '.' :: rest =>
    match rest with
    | d :: _ => if d.isDigit then some (rest.dropWhile Char.isDigit) else none
    | [] => none
  | _ => some cs

/-- Parse an optional exponent part `(e|E)(+|-)?digits`. -/
def parseExpPart (cs : List Char) : Option (List Char) :=
  match cs with
  | e :: rest =>
    if e = 'e' || e = 'E' then
      let rest2 := match rest with
        | s :: r => if s = '+' || s = '-' then r else rest
        | [] => rest
      match rest2 with
      | d :: _ => if d.isDigit then some (rest2.dropWhile Char.isDigit) else none
      | [] => none
    else some cs
  | [] => some cs

/-- Parse a JSON number (`-`? int frac? exp?). -/
def parseNumber (cs : List Char) : Option (List Char) :=
  let cs1 := match cs with
    | '-' :: rest => rest
    | _ => cs
  match parseIntPart cs1 with
  | none => none
  | some r1 =>
    match parseFracPart r1 with
    | none => none
    | some r2 => parseExpPart r2

/-- Expect a literal word (used for `true`, `false`, `null`). -/
def parseLit : List Char → List Char → Option (List Char)
  | [], cs => some cs
  | _ :: _, [] => none
  | w :: ws, c :: cs => if w = c then parseLit ws cs else none

mutual

/-- Parse one JSON value (with leading whitespace); return the rest. -/
def parseValue : Nat → List Char → Option (List Char)
  | 0, _ => none
  | f + 1, cs =>
    match skipWs cs with
    | [] => none
    | c :: rest =>
      if c = '"' then parseStringBody (rest.length + 1) rest
      else if c = '\x7b' then parseObjectRest f rest
      else if c = '[' then parseArrayRest f rest
      else if c = 't' then parseLit ['r', 'u', 'e'] rest
      else if c = 'f' then parseLit ['a', 'l', 's', 'e'] rest
      else if c = 'n' then parseLit ['u', 'l', 'l'] rest
      else parseNumber (c :: rest)

/-- Parse the inside of a JSON object after the opening brace. -/
def parseObjectRest : Nat → List Char → Option (List Char)
  | 0, _ => none
  | f + 1, cs =>
    match skipWs cs with
    | '\x7d' :: rest => some rest
    | _ => parseMembers f cs

/-- Parse one or more `"key": value` members and the closing brace. -/
def parseMembers : Nat → List Char → Option (List Char)
  | 0, _ => none
  | f + 1, cs =>
    match skipWs cs with
    | '"' :: rest =>
      match parseStringBody (rest.length + 1) rest with
      | none => none
      | some r1 =>
        match skipWs r1 with
        | ':' :: r2 =>
          match parseValue f r2 with
          | none => none
          | some r3 =>
            match skipWs r3 with
            | ',' :: r4 => parseMembers f r4
            | '\x7d' :: r4 => some r4
            | _ => none
        | _ => none
    | _ => none

/-- Parse the inside of a JSON array after the opening bracket. -/
def parseArrayRest : Nat → List Char → Option (List Char)
  | 0, _ => none
  | f + 1, cs =>
    match skipWs cs with
    | ']' :: rest => some rest
    | _ => parseElems f cs

/-- Parse one or more array elements and the closing bracket. -/
def parseElems : Nat → List Char → Option (List Char)
  | 0, _ => none
  | f + 1, cs =>
    match parseValue f cs with
    | none => none
    | some r1 =>
      match skipWs r1 with
      | ',' :: r2 => parseElems f r2
      | ']' :: r2 => some r2
      | _ => none

end

/-- `jsonValid cs` holds exactly when Python `json.loads` accepts `cs`:
one complete JSON value with only whitespace around it. -/
def jsonValid (cs : List Char) : Bool :=
  match parseValue (4 * cs.length + 4) cs with
  | some rest => (skipWs rest).isEmpty
  | none => false

/-! ### The incremental JSON extraction loop of `process_message`

Source, `gui.py` lines 713–791: for each content token the loop either
seeds the JSON buffer (first token whose stripped form starts with a brace),
appends to the buffer and re-attempts a parse, or routes the token to the
plain-text response channel; at stream end a final parse of a pending
non-empty buffer is attempted through `handle_assistant_response`. -/

/-- Model of Python `str.strip()`: remove whitespace from both ends. -/
def pyStrip (cs : List Char) : List Char :=
  ((cs.dropWhile Char.isWhitespace).reverse.dropWhile Char.isWhitespace).reverse

/-- Model of `.startswith("\x7b")` on a character list. -/
def startsWithBrace : List Char → Bool
  | [] => false
  | c :: _ => c = '\x7b'

/-- State of the streaming loop of `process_message`: the `json_started`
flag, the accumulation buffer `json_content`, the buffers already passed to
`handle_assistant_response` during the loop, and the tokens routed to the
plain-text response channel. -/
structure StreamState where
  json_started : Bool
  json_content : List Char
  handled : List (List Char)
  plain : List (List Char)
deriving DecidableEq

/-- Initial state of the streaming loop (`json_started = False`,
`json_content = ""`). -/
def initStream : StreamState :=
  { json_started := false, json_content := [], handled := [], plain := [] }

/-- One iteration of the token loop of `process_message` (lines 742–778):
seed the buffer on a stripped leading brace, else if inside JSON append the
token and fire `handle_assistant_response` when the buffer parses, else
route the token to the plain-text channel. -/
def streamStep (s : StreamState) (token : List Char) : StreamState :=
  if !s.json_started && startsWithBrace (pyStrip token) then
    { s with json_started := true, json_content := token }
  else if s.json_started then
    let buf := s.json_content ++ token
    if jsonValid buf then
      { s with json_started := false, json_content := [],
               handled := s.handled ++ [buf] }
    else
      { s with json_content := buf }
  else
    { s with plain := s.plain ++ [token] }

/-- Run the token loop over a whole stream of content tokens. -/
def runStream (tokens : List (List Char)) : StreamState :=
  tokens.foldl streamStep initStream

/-- Model of the post-loop code (lines 786–791): the buffer handed to
`handle_assistant_response` at stream end, if any. -/
def finalHandled (s : StreamState) : List (List Char) :=
  if s.json_started && !s.json_content.isEmpty then [s.json_content] else []

/-- Every buffer passed to `handle_assistant_response` over a whole stream:
in-loop parses plus the final attempt. -/
def allHandled (tokens : List (List Char)) : List (List Char) :=
  (runStream tokens).handled ++ finalHandled (runStream tokens)

/-- Outcome of the `json.loads` call at the top of
`handle_assistant_response`: the payload parses, or a `JSONDecodeError` is
caught by its local handler. -/
inductive HandlerOutcome
  | completed (payload : List Char)
  | parseError (buf : List Char)
deriving DecidableEq

/-- Parse stage of `handle_assistant_response` (lines 815–877): on invalid
JSON the `except json.JSONDecodeError` branch runs. -/
def handleAssistantParse (buf : List Char) : HandlerOutcome :=
  if jsonValid buf then .completed buf else .parseError buf

/-- Conversation messages appended by the parse stage: the
`JSONDecodeError` branch appends an error bubble (line 876). -/
def handlerConversationMsg : HandlerOutcome → List (List Char)
  | .completed _ => []
  | .parseError _ => ["❌ Error parsing assistant response".data]

/-! ### String helpers modelling Python `in` / `str.replace(old, new, 1)` -/

/-- Decide whether the first list is a prefix of the second. -/
def isPrefixL : List Char → List Char → Bool
  | [], _ => true
  | _ :: _, [] => false
  | a :: as, b :: bs => a = b && isPrefixL as bs

/-- Model of Python substring membership `needle in hay`. -/
def containsSub (needle : List Char) : List Char → Bool
  | [] => needle.isEmpty
  | c :: rest => isPrefixL needle (c :: rest) || containsSub needle rest

/-- Number of start positions at which `needle` occurs in the list. -/
def countOcc (needle : List Char) : List Char → Nat
  | [] => if needle.isEmpty then 1 else 0
  | c :: rest => (if isPrefixL needle (c :: rest) then 1 else 0) + countOcc needle rest

/-- Model of Python `hay.replace(needle, repl, 1)`: replace the leftmost
occurrence of `needle`, if any. -/
def replaceFirst (hay needle repl : List Char) : List Char :=
  match hay with
  | [] => if needle.isEmpty then repl else []
  | c :: rest =>
    if isPrefixL needle (c :: rest) then repl ++ (c :: rest).drop needle.length
    else c :: replaceFirst rest needle repl

/-! ### Filesystem model, `create_file` and `apply_diff_edit`

Paths are component lists; a filesystem is the set of existing directories
plus an association of file paths to contents. -/

/-- Model filesystem: existing directories and file contents. -/
structure FS where
  dirs : List (List String)
  files : List (List String × List Char)
deriving DecidableEq

/-- Content of the file at `p`, when it exists. -/
def readFile (fs : FS) (p : List String) : Option (List Char) :=
  (fs.files.find? (fun e => decide (e.1 = p))).map (fun e => e.2)

/-- All non-empty prefixes of a directory path, shortest first. -/
def ancestors (dir : List String) : List (List String) :=
  (List.range dir.length).map (fun i => dir.take (i + 1))

/-- Model of `Path(...).mkdir(parents=True, exist_ok=True)`: every missing
ancestor of `dir` comes into existence. -/
def mkdirParents (fs : FS) (dir : List String) : FS :=
  { fs with dirs := ancestors dir ++ fs.dirs }

/-- Overwrite (or create) the file at `p` with `content`. -/
def writeFile (fs : FS) (p : List String) (content : List Char) : FS :=
  { fs with files := (p, content) :: fs.files.filter (fun e => !decide (e.1 = p)) }

/-- Model of `create_file` (gui.py lines 45–51): create the parent
directories, then write the full content at the path. -/
def create_file (fs : FS) (path : List String) (content : List Char) : FS :=
  writeFile (mkdirParents fs path.dropLast) path content

/-- The three status messages `apply_diff_edit` can return. -/
inductive EditResult
  | applied (path : List String)
  | snippetNotFound (path : List String)
  | fileNotFound (path : List String)
deriving DecidableEq

/-- Join path components for display. -/
def renderPath (p : List String) : List Char :=
  (String.intercalate "/" p).data

/-- The status string returned by `apply_diff_edit`: an applied edit, an
absent snippet, or a missing file (gui.py lines 58–64). -/
def editResultMsg : EditResult → List Char
  | .applied p => "✓ Applied diff edit to ".data ++ renderPath p
  | .snippetNotFound p =>
      "⚠ Original snippet not found in ".data ++ renderPath p ++ ". No changes made.".data
  | .fileNotFound p => "✗ File not found for diff editing: ".data ++ renderPath p

/-- Model of `apply_diff_edit` (gui.py lines 53–64): read the file, and if
`original_snippet` occurs in the content, write back the content with the
first occurrence replaced; an absent snippet or a missing file leaves the
filesystem unchanged and is reported through the status message. -/
def apply_diff_edit (fs : FS) (path : List String)
    (original_snippet new_snippet : List Char) : FS × EditResult :=
  match readFile fs path with
  | none => (fs, .fileNotFound path)
  | some content =>
    if containsSub original_snippet content then
      (create_file fs path (replaceFirst content original_snippet new_snippet),
        .applied path)
    else
      (fs, .snippetNotFound path)

/-! ### Path handling: `os.path.isabs` / `os.path.relpath`

Lines 851–853 of `handle_assistant_response` rewrite an absolute creation
path into one relative to the current working directory.  POSIX paths are
modelled as a flag saying whether the path is absolute plus the list of
components. -/

/-- A POSIX path: absolute flag and components. -/
structure PyPath where
  absolute : Bool
  comps : List String
deriving DecidableEq

/-- Length of the longest common prefix of two component lists. -/
def commonPrefixLen : List String → List String → Nat
  | a :: as, b :: bs => if a = b then commonPrefixLen as bs + 1 else 0
  | _, _ => 0

/-- Model of POSIX `os.path.relpath(target, cwd)` on component lists:
climb out of the non-shared part of `cwd`, then descend into the
non-shared part of `target`; an empty result is the current directory. -/
def relpath (cwd target : List String) : List String :=
  let i := commonPrefixLen cwd target
  let r := List.replicate (cwd.length - i) ".." ++ target.drop i
  if r = [] then ["."] else r

/-- The path rewrite of `handle_assistant_response` lines 851–853: an
absolute creation path becomes `os.path.relpath(path)` (relative to the
current working directory); a relative path is left as supplied. -/
def rewriteCreatePath (cwd : List String) (p : PyPath) : PyPath :=
  if p.absolute then { absolute := false, comps := relpath cwd p.comps } else p

/-- Resolve one component against a directory stack: `.` is skipped, `..`
pops, anything else descends. -/
def resolveStep (stack : List String) (c : String) : List String :=
  if c = "." then stack
  else if c = ".." then stack.dropLast
  else stack ++ [c]

/-- Resolve a relative component list against a working directory. -/
def resolve (cwd q : List String) : List String :=
  q.foldl resolveStep cwd

/-- Test that a component list mentions neither `.` nor `..`. -/
def noDots (l : List String) : Bool :=
  l.all (fun c => !(c == ".") && !(c == ".."))

/-! ### The file-operation executor of `handle_assistant_response`

Lines 847–873: every creation and every edit runs inside its own
`try/except`; an exception is reported as a per-item error bubble and the
loop moves on.  OS-level failures (permissions and the like) are outside
the program text, so each loop takes an oracle giving the exception an
item raises, if any. -/

/-- A file to create, as validated from the payload (source model
`FileToCreate`): path and full content. -/
structure FileToCreate where
  path : PyPath
  content : List Char
deriving DecidableEq

/-- A file to edit (source model `FileToEdit`): path, exact snippet to
find, and replacement. -/
structure FileToEdit where
  path : List String
  original_snippet : List Char
  new_snippet : List Char
deriving DecidableEq

/-- Conversation messages the executor can append: per-create success or
error (lines 858–862), and per-edit success or error (lines 867–873). -/
inductive OpReport
  | created (path : PyPath)
  | createError (path : PyPath) (err : List Char)
  | edited (path : List String)
  | editError (path : List String) (err : List Char)
deriving DecidableEq

/-- The creation loop (lines 852–862): per item, rewrite an absolute path,
call `create_file` and report success, or catch the exception and report a
per-item error; the loop always continues. -/
def runCreates (oracle : FileToCreate → FS → Option (List Char))
    (cwd : List String) : List FileToCreate → FS → FS × List OpReport
  | [], fs => (fs, [])
  | op :: rest, fs =>
    match oracle op fs with
    | some err =>
      let next := runCreates oracle cwd rest fs
      (next.1, .createError (rewriteCreatePath cwd op.path) err :: next.2)
    | none =>
      let p := rewriteCreatePath cwd op.path
      let fs2 := create_file fs p.comps op.content
      let next := runCreates oracle cwd rest fs2
      (next.1, .created p :: next.2)

/-- The edit loop (lines 865–873): per item, call `apply_diff_edit` and —
since the returned status string is tested only for truthiness
(`if result:`) — append the `✓ Updated file` bubble whenever that string
is non-empty; an exception is caught and reported; the loop always
continues. -/
def runEdits (oracle : FileToEdit → FS → Option (List Char)) :
    List FileToEdit → FS → FS × List OpReport
  | [], fs => (fs, [])
  | op :: rest, fs =>
    match oracle op fs with
    | some err =>
      let next := runEdits oracle rest fs
      (next.1, .editError op.path err :: next.2)
    | none =>
      let r := apply_diff_edit fs op.path op.original_snippet op.new_snippet
      let msgs := if (editResultMsg r.2).isEmpty then [] else [OpReport.edited op.path]
      let next := runEdits oracle rest r.1
      (next.1, msgs ++ next.2)

/-- The whole executor: all creations in order, then all edits in order
(lines 850–873). -/
def handleFileOps (oc : FileToCreate → FS → Option (List Char))
    (oe : FileToEdit → FS → Option (List Char)) (cwd : List String)
    (creates : List FileToCreate) (edits : List FileToEdit) (fs : FS) :
    FS × List OpReport :=
  let c := runCreates oc cwd creates fs
  let e := runEdits oe edits c.1
  (e.1, c.2 ++ e.2)

/-! ### Payload normalisation of `handle_assistant_response`

Lines 816–845: the decoded JSON payload is normalised before validation —
`response_data.get(key, []) or []` collapses a missing, null or otherwise
falsy value to the empty list, and a dict value is wrapped into a
one-element list. -/

/-- Decoded JSON values as Python `json.loads` produces them. -/
inductive JValue
  | null
  | bool (b : Bool)
  | num (n : Int)
  | str (s : List Char)
  | arr (xs : List JValue)
  | obj (fields : List (List Char × JValue))

/-- Python truthiness of a decoded JSON value: `None`, `False`, `0`, the
empty string, the empty list and the empty dict are falsy. -/
def jfalsy : JValue → Bool
  | .null => true
  | .bool b => !b
  | .num n => n == 0
  | .str s => s.isEmpty
  | .arr xs => xs.isEmpty
  | .obj fields => fields.isEmpty

/-- Dictionary lookup in a decoded JSON object. -/
def lookupJ (data : List (List Char × JValue)) (k : List Char) : Option JValue :=
  (data.find? (fun e => decide (e.1 = k))).map (fun e => e.2)

/-- The normalisation applied to `files_to_create` and `files_to_edit`
(lines 817–842): a missing key becomes the empty list; a present value is
first collapsed to the empty list when falsy (`... or []`), and then
wrapped into a one-element list when it is a dict. -/
def normalizeOps (data : List (List Char × JValue)) (k : List Char) : JValue :=
  match lookupJ data k with
  | none => .arr []
  | some v =>
    let v1 := if jfalsy v then .arr [] else v
    match v1 with
    | .obj fields => .arr [.obj fields]
    | x => x

/-! ### The balance query `get_api_balance`

Lines 882–913: a `requests.get` with a 10s timeout, `raise_for_status`,
JSON decoding and a `float(...)` conversion, each failure mode caught and
logged, returning `0.0`. -/

/-- The decoded body of the balance endpoint response: malformed JSON, a
valid body without a `balance` field, a numeric balance, or a `balance`
value `float(...)` rejects. -/
inductive BalanceBody
  | malformedJson
  | missingBalance
  | balanceNumeric (q : Rat)
  | balanceBadString (s : List Char)
deriving DecidableEq

/-- An HTTP response to the balance query: status code and body. -/
structure BalanceResponse where
  status : Nat
  body : BalanceBody
deriving DecidableEq

/-- Outcome of the balance request: transport failure (network error,
timeout), or a response. -/
inductive BalanceOutcome
  | requestFailed (msg : List Char)
  | gotResponse (r : BalanceResponse)
deriving DecidableEq

/-- Model of `get_api_balance` (lines 882–913), returning the balance and
the log entries written.  A transport failure and a bad status land in the
`requests.RequestException` handler; a malformed body or a non-numeric
balance value raises `ValueError`, caught by the next handler; a valid
body without a `balance` field defaults to `0.0` with no log. -/
def get_api_balance : BalanceOutcome → Rat × List (List Char)
  | .requestFailed msg => (0, ["API request failed: ".data ++ msg])
  | .gotResponse r =>
    if 400 ≤ r.status then
      (0, ["API request failed: status error".data])
    else
      match r.body with
      | .malformedJson => (0, ["Error parsing API response: invalid JSON".data])
      | .missingBalance => (0, [])
      | .balanceNumeric q => (q, [])
      | .balanceBadString _ => (0, ["Error parsing API response: bad balance value".data])

/-- The failure modes the specification lists for the balance query: a
transport error (network failure, timeout), a bad HTTP status such as 500,
or a malformed response body. -/
def balanceFailure : BalanceOutcome → Bool
  | .requestFailed _ => true
  | .gotResponse r =>
    decide (400 ≤ r.status) ||
      (match r.body with
        | .malformedJson => true
        | .balanceBadString _ => true
        | _ => false)

/-! ### Concrete inputs used by the claim theorems -/

/-- The JSON object of claim C1. -/
def STarget : List Char := "\x7b\"assistant_reply\":\"x\"\x7d".data

/-- A filesystem holding one file whose content is `aaa`. -/
def fsAAA : FS := { dirs := [], files := [(["f.txt"], "aaa".data)] }

/-- A filesystem holding one file whose content is `hello`. -/
def fsHello : FS := { dirs := [], files := [(["n.txt"], "hello".data)] }

/-- An edit operation whose snippet is absent from `hello`. -/
def opNoSnippet : FileToEdit :=
  { path := ["n.txt"], original_snippet := "xyz".data, new_snippet := "new".data }

/-- A create-operation oracle under which every OS write raises. -/
def alwaysRaise : FileToCreate → FS → Option (List Char) :=
  fun _ _ => some "boom".data

/-- A create-operation oracle under which no OS write raises. -/
def neverRaiseC : FileToCreate → FS → Option (List Char) :=
  fun _ _ => none

/-- An edit-operation oracle under which no OS access raises. -/
def neverRaiseE : FileToEdit → FS → Option (List Char) :=
  fun _ _ => none

/-- A concrete relative-path creation operation. -/
def opCreate0 : FileToCreate :=
  { path := { absolute := false, comps := ["x.py"] }, content := "print".data }

/-- A second concrete creation operation. -/
def opCreate1 : FileToCreate :=
  { path := { absolute := false, comps := ["y.py"] }, content := "pass".data }

/-- The payload key `files_to_create`. -/
def fkey : List Char := "files_to_create".data

/-- Invariant of the streaming loop run on a token decomposition of
`STarget`, where `P` is the concatenation of the tokens consumed so far:
before the first non-empty token nothing has happened; strictly inside the
object the buffer holds exactly `P`; once `P` is the whole object either
the in-loop parse has fired with the full object, or the whole object
arrived as the seeding token and still sits in the buffer. -/
def StreamInv (P : List Char) (s : StreamState) : Prop :=
  (P = [] ∧ s.json_started = false ∧ s.json_content = [] ∧ s.handled = [])
  ∨ (P ≠ [] ∧ P ≠ STarget ∧ s.json_started = true ∧ s.json_content = P ∧
      s.handled = [])
  ∨ (P = STarget ∧
      ((s.json_started = false ∧ s.json_content = [] ∧ s.handled = [STarget])
        ∨ (s.json_started = true ∧ s.json_content = STarget ∧ s.handled = [])))

/-! ## Theorems -/

theorem jsonValid_sTarget : jsonValid STarget = true := by decide

theorem sTarget_length : STarget.length = 23 := by decide

theorem jsonValid_sTarget_take : ∀ n, n < 23 → jsonValid (STarget.take n) = false := by
  decide

theorem sTarget_no_ws : ∀ c ∈ STarget, c.isWhitespace = false := by decide

theorem pyStrip_eq_self (t : List Char) (h : ∀ c ∈ t, c.isWhitespace = false) :
    pyStrip t = t := by
  unfold pyStrip
  have h1 : t.dropWhile Char.isWhitespace = t := by
    cases t with
    | nil => rfl
    | cons c cs => simp [List.dropWhile_cons, h c (List.mem_cons_self c cs)]
  rw [h1]
  have h2 : t.reverse.dropWhile Char.isWhitespace = t.reverse := by
    cases ht : t.reverse with
    | nil => rfl
    | cons c cs =>
      have hc : c ∈ t := by
        rw [← List.mem_reverse, ht]
        exact List.mem_cons_self c cs
      simp [List.dropWhile_cons, h c hc]
  rw [h2, List.reverse_reverse]

/-- C6: any token that arrives while the inside-json flag is false and whose
stripped content does not begin with a brace is never added to the JSON
accumulation buffer (the buffer, flag and handled list are untouched) and is
routed only to the plain-text response channel. -/
theorem claim_c6_plain_routing (s : StreamState) (t : List Char)
    (h1 : s.json_started = false)
    (h2 : startsWithBrace (pyStrip t) = false) :
    (streamStep s t).json_content = s.json_content ∧
    (streamStep s t).json_started = false ∧
    (streamStep s t).handled = s.handled ∧
    (streamStep s t).plain = s.plain ++ [t] := by
  simp [streamStep, h1, h2]

theorem claim_c6_plain_routing_witness :
    (streamStep initStream "hello".data).json_content = initStream.json_content ∧
    (streamStep initStream "hello".data).json_started = false ∧
    (streamStep initStream "hello".data).handled = initStream.handled ∧
    (streamStep initStream "hello".data).plain = initStream.plain ++ ["hello".data] :=
  claim_c6_plain_routing initStream "hello".data (by decide) (by decide)

/-- C7: if the stream ends while the inside-json flag is true and the buffer
is non-empty, exactly one final parse is attempted — the buffer is handed to
`handle_assistant_response` exactly once — and when that parse fails the
`JSONDecodeError` branch appends a visible error message to the
conversation rather than dropping the failure. -/
theorem claim_c7_final_parse (ts : List (List Char))
    (h1 : (runStream ts).json_started = true)
    (h2 : (runStream ts).json_content ≠ []) :
    finalHandled (runStream ts) = [(runStream ts).json_content] ∧
    (jsonValid (runStream ts).json_content = false →
      handlerConversationMsg (handleAssistantParse (runStream ts).json_content) =
        ["❌ Error parsing assistant response".data]) := by
  constructor
  · simp [finalHandled, h1, h2]
  · intro hbad
    simp [handleAssistantParse, hbad, handlerConversationMsg]

theorem claim_c7_final_parse_witness :
    finalHandled (runStream [['\x7b', 'a']]) =
      [(runStream [['\x7b', 'a']]).json_content] ∧
    (jsonValid (runStream [['\x7b', 'a']]).json_content = false →
      handlerConversationMsg
          (handleAssistantParse (runStream [['\x7b', 'a']]).json_content) =
        ["❌ Error parsing assistant response".data]) :=
  claim_c7_final_parse [['\x7b', 'a']] (by decide) (by decide)

/-- C8: creating a file at `a/b/c` when the directories `a` and `a/b` do not
yet exist creates both directories and the file holds exactly the given
content. -/
theorem claim_c8_create_parents (fs : FS) (a b c : String) (content : List Char)
    (h1 : [a] ∉ fs.dirs) (h2 : [a, b] ∉ fs.dirs) :
    [a] ∈ (create_file fs [a, b, c] content).dirs ∧
    [a, b] ∈ (create_file fs [a, b, c] content).dirs ∧
    readFile (create_file fs [a, b, c] content) [a, b, c] = some content := by
  refine ⟨?_, ?_, ?_⟩
  · simp [create_file, writeFile, mkdirParents, ancestors, List.range_succ]
  · simp [create_file, writeFile, mkdirParents, ancestors, List.range_succ]
  · simp [readFile, create_file, writeFile, mkdirParents]

theorem claim_c8_create_parents_witness :
    [("a" : String)] ∈ (create_file ⟨[], []⟩ ["a", "b", "c.txt"] "hi".data).dirs ∧
    [("a" : String), "b"] ∈ (create_file ⟨[], []⟩ ["a", "b", "c.txt"] "hi".data).dirs ∧
    readFile (create_file ⟨[], []⟩ ["a", "b", "c.txt"] "hi".data) ["a", "b", "c.txt"]
      = some "hi".data :=
  claim_c8_create_parents ⟨[], []⟩ "a" "b" "c.txt" "hi".data (by decide) (by decide)

/-- C9: whenever the balance query fails — a transport error, a bad HTTP
status such as 500, or a malformed response body — `get_api_balance`
returns `0.0` and writes a log entry; being a total function of the
outcome, no exception propagates. -/
theorem claim_c9_balance_zero (o : BalanceOutcome) (h : balanceFailure o = true) :
    (get_api_balance o).1 = 0 ∧ (get_api_balance o).2 ≠ [] := by
  cases o with
  | requestFailed msg => simp [get_api_balance]
  | gotResponse r =>
    by_cases hs : 400 ≤ r.status
    · simp [get_api_balance, hs]
    · cases hb : r.body with
      | malformedJson => simp [get_api_balance, hs, hb]
      | missingBalance => simp [balanceFailure, hs, hb] at h
      | balanceNumeric q => simp [balanceFailure, hs, hb] at h
      | balanceBadString s => simp [get_api_balance, hs, hb]

theorem claim_c9_balance_zero_witness :
    (get_api_balance (.gotResponse ⟨500, .missingBalance⟩)).1 = 0 ∧
    (get_api_balance (.gotResponse ⟨500, .missingBalance⟩)).2 ≠ [] :=
  claim_c9_balance_zero (.gotResponse ⟨500, .missingBalance⟩) (by decide)

theorem commonPrefixLen_le_left (a b : List String) :
    commonPrefixLen a b ≤ a.length := by
  induction a generalizing b with
  | nil => cases b <;> simp [commonPrefixLen]
  | cons x xs ih =>
    cases b with
    | nil => simp [commonPrefixLen]
    | cons y ys =>
      by_cases h : x = y
      · simpa [commonPrefixLen, h] using Nat.succ_le_succ (ih ys)
      · simp [commonPrefixLen, h]

theorem commonPrefixLen_le_right (a b : List String) :
    commonPrefixLen a b ≤ b.length := by
  induction a generalizing b with
  | nil => cases b <;> simp [commonPrefixLen]
  | cons x xs ih =>
    cases b with
    | nil => simp [commonPrefixLen]
    | cons y ys =>
      by_cases h : x = y
      · simpa [commonPrefixLen, h] using Nat.succ_le_succ (ih ys)
      · simp [commonPrefixLen, h]

theorem commonPrefixLen_take (a b : List String) :
    a.take (commonPrefixLen a b) = b.take (commonPrefixLen a b) := by
  induction a generalizing b with
  | nil => cases b <;> simp [commonPrefixLen]
  | cons x xs ih =>
    cases b with
    | nil => simp [commonPrefixLen]
    | cons y ys =>
      by_cases h : x = y
      · simp [commonPrefixLen, h, ih ys]
      · simp [commonPrefixLen, h]

theorem resolve_append (s q1 q2 : List String) :
    resolve s (q1 ++ q2) = resolve (resolve s q1) q2 := by
  simp [resolve, List.foldl_append]

theorem resolve_replicate_up (s : List String) (k : Nat) :
    resolve s (List.replicate k "..") = s.take (s.length - k) := by
  induction k generalizing s with
  | zero => simp [resolve]
  | succ n ih =>
    have h1 : resolve s (List.replicate (n + 1) "..") =
        resolve s.dropLast (List.replicate n "..") := by
      simp [resolve, List.replicate_succ, resolveStep]
    rw [h1, ih]
    rw [List.dropLast_eq_take, List.take_take, List.length_take]
    congr 1
    omega

theorem resolve_noDots (s q : List String) (h : noDots q = true) :
    resolve s q = s ++ q := by
  induction q generalizing s with
  | nil => simp [resolve]
  | cons c cs ih =>
    simp only [noDots, List.all_cons, Bool.and_eq_true] at h
    have hstep : resolveStep s c = s ++ [c] := by
      simp only [resolveStep]
      rw [if_neg, if_neg]
      · intro hc; simp [hc] at h
      · intro hc; simp [hc] at h
    have : resolve s (c :: cs) = resolve (resolveStep s c) cs := rfl
    rw [this, hstep, ih _ h.2]
    simp

theorem noDots_drop (l : List String) (i : Nat) (h : noDots l = true) :
    noDots (l.drop i) = true := by
  simp only [noDots, List.all_eq_true] at h ⊢
  exact fun c hc => h c (List.drop_subset i l hc)

theorem resolve_relpath (cwd target : List String) (h : noDots target = true) :
    resolve cwd (relpath cwd target) = target := by
  by_cases hr : List.replicate (cwd.length - commonPrefixLen cwd target) ".."
      ++ target.drop (commonPrefixLen cwd target) = []
  · have hrel : relpath cwd target = ["."] := by
      simp only [relpath]
      rw [if_pos hr]
    rw [hrel]
    have hres : resolve cwd ["."] = cwd := by simp [resolve, resolveStep]
    rw [hres]
    rcases List.append_eq_nil.mp hr with ⟨hup, hdrop⟩
    have h1 : cwd.length - commonPrefixLen cwd target = 0 := by
      simpa using congrArg List.length hup
    have h2 : commonPrefixLen cwd target = cwd.length := by
      have := commonPrefixLen_le_left cwd target
      omega
    have h3 : target.length ≤ commonPrefixLen cwd target := by
      have := congrArg List.length hdrop
      simp at this
      omega
    have h4 : target = target.take (commonPrefixLen cwd target) :=
      (List.take_of_length_le h3).symm
    have h5 : cwd = cwd.take (commonPrefixLen cwd target) := by
      rw [h2, List.take_length]
    rw [h5, commonPrefixLen_take, ← h4]
  · have hrel : relpath cwd target =
        List.replicate (cwd.length - commonPrefixLen cwd target) ".."
          ++ target.drop (commonPrefixLen cwd target) := by
      simp only [relpath]
      rw [if_neg hr]
    rw [hrel, resolve_append, resolve_replicate_up]
    have hle : commonPrefixLen cwd target ≤ cwd.length :=
      commonPrefixLen_le_left cwd target
    have h1 : cwd.length - (cwd.length - commonPrefixLen cwd target) =
        commonPrefixLen cwd target := by omega
    rw [h1, resolve_noDots _ _ (noDots_drop target _ h), commonPrefixLen_take]
    exact List.take_append_drop _ target

/-- C5: a file-creation operation with an absolute path has its path
rewritten, before `create_file` runs, to a relative path that resolves
against the current working directory back to the original path; a
relative creation path is passed through unchanged. -/
theorem claim_c5_abs_rewrite (cwd : List String) (p : PyPath) :
    (p.absolute = false → rewriteCreatePath cwd p = p) ∧
    (p.absolute = true → noDots p.comps = true →
      (rewriteCreatePath cwd p).absolute = false ∧
      resolve cwd (rewriteCreatePath cwd p).comps = p.comps) := by
  constructor
  · intro h
    simp [rewriteCreatePath, h]
  · intro h hd
    refine ⟨by simp [rewriteCreatePath, h], ?_⟩
    simp only [rewriteCreatePath, h, if_true]
    exact resolve_relpath cwd p.comps hd

theorem claim_c5_abs_rewrite_witness :
    (PyPath.absolute ⟨true, ["home", "u", "x.py"]⟩ = false →
      rewriteCreatePath ["home", "w"] ⟨true, ["home", "u", "x.py"]⟩ =
        ⟨true, ["home", "u", "x.py"]⟩) ∧
    (PyPath.absolute ⟨true, ["home", "u", "x.py"]⟩ = true →
      noDots (PyPath.comps ⟨true, ["home", "u", "x.py"]⟩) = true →
      (rewriteCreatePath ["home", "w"] ⟨true, ["home", "u", "x.py"]⟩).absolute = false ∧
      resolve ["home", "w"]
          (rewriteCreatePath ["home", "w"] ⟨true, ["home", "u", "x.py"]⟩).comps =
        PyPath.comps ⟨true, ["home", "u", "x.py"]⟩) :=
  claim_c5_abs_rewrite ["home", "w"] ⟨true, ["home", "u", "x.py"]⟩

theorem isPrefixL_self_append (n B : List Char) : isPrefixL n (n ++ B) = true := by
  induction n with
  | nil => rfl
  | cons c cs ih => simp [isPrefixL, ih]

theorem isPrefixL_nil_right (n : List Char) (h : isPrefixL n [] = true) : n = [] := by
  cases n with
  | nil => rfl
  | cons c cs => simp [isPrefixL] at h

theorem containsSub_of_isPrefixL (n l : List Char) (h : isPrefixL n l = true) :
    containsSub n l = true := by
  cases l with
  | nil => simpa [containsSub, List.isEmpty_iff] using isPrefixL_nil_right n h
  | cons c rest => simp [containsSub, h]

theorem containsSub_of_split (A n B : List Char) :
    containsSub n (A ++ n ++ B) = true := by
  induction A with
  | nil =>
    simpa using containsSub_of_isPrefixL n (n ++ B) (isPrefixL_self_append n B)
  | cons a A2 ih =>
    simp only [List.cons_append, containsSub, List.append_eq, Bool.or_eq_true]
    right
    exact ih

theorem countOcc_le_append_left (n A B : List Char) :
    countOcc n B ≤ countOcc n (A ++ B) := by
  induction A with
  | nil => simp
  | cons a A2 ih =>
    calc countOcc n B ≤ countOcc n (A2 ++ B) := ih
    _ ≤ countOcc n ((a :: A2) ++ B) := by
        simp only [List.cons_append, countOcc, List.append_eq]
        omega

theorem countOcc_self_append_ge (n B : List Char) (hne : n ≠ []) :
    countOcc n B + 1 ≤ countOcc n (n ++ B) := by
  cases n with
  | nil => exact absurd rfl hne
  | cons c n2 =>
    have hp : isPrefixL (c :: n2) ((c :: n2) ++ B) = true :=
      isPrefixL_self_append (c :: n2) B
    have hle := countOcc_le_append_left (c :: n2) n2 B
    simp only [List.cons_append] at hp ⊢
    simp only [countOcc, List.append_eq, hp, if_true]
    omega

theorem countOcc_pos_of_contains (n l : List Char) (h : containsSub n l = true) :
    1 ≤ countOcc n l := by
  induction l with
  | nil =>
    simp only [containsSub] at h
    simp [countOcc, h]
  | cons c rest ih =>
    simp only [containsSub, Bool.or_eq_true] at h
    rcases h with h | h
    · simp [countOcc, h]
    · have := ih h
      simp only [countOcc]
      omega

theorem replaceFirst_split (A n B repl : List Char) (hne : n ≠ [])
    (hleft : ∀ j, j < A.length → isPrefixL n ((A ++ n ++ B).drop j) = false) :
    replaceFirst (A ++ n ++ B) n repl = A ++ repl ++ B := by
  induction A with
  | nil =>
    cases n with
    | nil => exact absurd rfl hne
    | cons c n2 =>
      have hp : isPrefixL (c :: n2) (c :: (n2 ++ B)) = true := by
        simpa using isPrefixL_self_append (c :: n2) B
      simp only [List.nil_append, List.cons_append, replaceFirst, List.append_eq,
        hp, if_true]
      simp only [List.length_cons, List.drop_succ_cons]
      rw [List.drop_left]
  | cons a A2 ih =>
    have h0 : isPrefixL n (a :: (A2 ++ n ++ B)) = false := by
      simpa using hleft 0 (Nat.succ_pos A2.length)
    simp only [List.cons_append, replaceFirst, List.append_eq, h0, if_false]
    rw [ih (fun j hj => by simpa using hleft (j + 1) (Nat.succ_lt_succ hj))]
    simp

theorem readFile_create_file (fs : FS) (p : List String) (content : List Char) :
    readFile (create_file fs p content) p = some content := by
  simp [readFile, create_file, writeFile, mkdirParents]

/-- C2 counterexample: the file content `aaa` contains the snippet `aa` at
exactly two start positions, but after
`apply_diff_edit(path, "aa", "X")` the file holds `Xa`, in which the second
occurrence has not survived — the two occurrences overlap, and replacing
the first destroys the second. -/
theorem claim_c2_counterexample :
    countOcc "aa".data "aaa".data = 2 ∧
    (apply_diff_edit fsAAA ["f.txt"] "aa".data "X".data).2 =
      EditResult.applied ["f.txt"] ∧
    readFile (apply_diff_edit fsAAA ["f.txt"] "aa".data "X".data).1 ["f.txt"] =
      some "Xa".data ∧
    containsSub "aa".data "Xa".data = false := by decide

/-- C2 as amended: when the file contains `original_snippet` at exactly two
start positions and the second occurrence does not overlap the first (it
lies entirely in the part `B` after the first occurrence), the edit
replaces only the first (leftmost) occurrence and the second is left
intact; a second occurrence overlapping the first is destroyed instead, as
the counterexample shows. -/
theorem claim_c2_amended (fs : FS) (p : List String)
    (orig new content A B : List Char)
    (hread : readFile fs p = some content)
    (hne : orig ≠ [])
    (hsplit : content = A ++ orig ++ B)
    (hleft : ∀ j, j < A.length → isPrefixL orig (content.drop j) = false)
    (hcount : countOcc orig content = 2)
    (hsecond : containsSub orig B = true) :
    (apply_diff_edit fs p orig new).2 = EditResult.applied p ∧
    readFile (apply_diff_edit fs p orig new).1 p = some (A ++ new ++ B) ∧
    countOcc orig B = 1 := by
  have hcontains : containsSub orig content = true := by
    rw [hsplit]; exact containsSub_of_split A orig B
  have hrepl : replaceFirst content orig new = A ++ new ++ B := by
    rw [hsplit]
    exact replaceFirst_split A orig B new hne (by rw [← hsplit]; exact hleft)
  have hedit : apply_diff_edit fs p orig new =
      (create_file fs p (replaceFirst content orig new), EditResult.applied p) := by
    simp only [apply_diff_edit, hread, hcontains, if_true]
  refine ⟨by rw [hedit], ?_, ?_⟩
  · rw [hedit]
    simpa [hrepl] using readFile_create_file fs p (replaceFirst content orig new)
  · have h1 : countOcc orig B + 1 ≤ countOcc orig (orig ++ B) :=
      countOcc_self_append_ge orig B hne
    have h2 : countOcc orig (orig ++ B) ≤ countOcc orig (A ++ (orig ++ B)) :=
      countOcc_le_append_left orig A (orig ++ B)
    have h3 : countOcc orig (A ++ (orig ++ B)) = 2 := by
      rw [← List.append_assoc, ← hsplit]; exact hcount
    have h4 := countOcc_pos_of_contains orig B hsecond
    omega

theorem claim_c2_amended_witness :
    (apply_diff_edit ⟨[], [(["g.txt"], "abcabc".data)]⟩ ["g.txt"]
        "abc".data "Z".data).2 = EditResult.applied ["g.txt"] ∧
    readFile (apply_diff_edit ⟨[], [(["g.txt"], "abcabc".data)]⟩ ["g.txt"]
        "abc".data "Z".data).1 ["g.txt"] = some ("".data ++ "Z".data ++ "abc".data) ∧
    countOcc "abc".data "abc".data = 1 :=
  claim_c2_amended ⟨[], [(["g.txt"], "abcabc".data)]⟩ ["g.txt"]
    "abc".data "Z".data "abcabc".data "".data "abc".data
    (by decide) (by decide) (by decide) (by decide) (by decide) (by decide)

/-- C3: editing an existing file whose content lacks the snippet leaves the
file byte-for-byte unchanged and raises nothing, and `apply_diff_edit`
returns the snippet-not-found status — but the surrounding edit loop of
`handle_assistant_response` tests that status string only for truthiness
(`if result:`), so the conversation is given the success bubble
`✓ Updated file`, contradicting the code's own comment that a success
message appears only for a successful edit. -/
theorem claim_c3_snippet_absent_report :
    containsSub "xyz".data "hello".data = false ∧
    apply_diff_edit fsHello ["n.txt"] "xyz".data "new".data =
      (fsHello, EditResult.snippetNotFound ["n.txt"]) ∧
    (runEdits neverRaiseE [opNoSnippet] fsHello).1 = fsHello ∧
    (runEdits neverRaiseE [opNoSnippet] fsHello).2 =
      [OpReport.edited ["n.txt"]] := by decide

/-- C10 counterexample: a payload whose `files_to_create` value is the empty
dict is normalised to the empty list, not wrapped into a one-element list —
`response_data.get(key, []) or []` collapses every falsy value, and the
empty dict is falsy in Python. -/
theorem claim_c10_counterexample :
    normalizeOps [(fkey, JValue.obj [])] fkey = JValue.arr [] ∧
    JValue.arr ([] : List JValue) ≠ JValue.arr [JValue.obj []] := by
  refine ⟨rfl, ?_⟩
  intro h
  injection h with h2
  simp at h2

/-- C10 as amended: a missing key or a null value is replaced by the empty
list, and a dict value is wrapped into a one-element list only when the
dict is non-empty; an empty dict — falsy in Python, like null — is
replaced by the empty list as well. -/
theorem claim_c10_amended (data : List (List Char × JValue)) (k : List Char) :
    (lookupJ data k = none → normalizeOps data k = JValue.arr []) ∧
    (lookupJ data k = some JValue.null → normalizeOps data k = JValue.arr []) ∧
    (∀ fields, fields ≠ [] → lookupJ data k = some (JValue.obj fields) →
      normalizeOps data k = JValue.arr [JValue.obj fields]) ∧
    (lookupJ data k = some (JValue.obj []) → normalizeOps data k = JValue.arr []) := by
  refine ⟨?_, ?_, ?_, ?_⟩
  · intro h
    simp [normalizeOps, h]
  · intro h
    simp [normalizeOps, h, jfalsy]
  · intro fields hne h
    cases fields with
    | nil => exact absurd rfl hne
    | cons f fs => simp [normalizeOps, h, jfalsy]
  · intro h
    simp [normalizeOps, h, jfalsy]

theorem claim_c10_amended_witness :
    normalizeOps [(fkey, JValue.obj [(fkey, JValue.null)])] fkey =
      JValue.arr [JValue.obj [(fkey, JValue.null)]] :=
  (claim_c10_amended [(fkey, JValue.obj [(fkey, JValue.null)])] fkey).2.2.1
    [(fkey, JValue.null)] (by simp) rfl

theorem editResultMsg_ne_nil (r : EditResult) : (editResultMsg r).isEmpty = false := by
  cases r <;> rfl

theorem runCreates_append (o : FileToCreate → FS → Option (List Char))
    (cwd : List String) (xs ys : List FileToCreate) (fs : FS) :
    runCreates o cwd (xs ++ ys) fs =
      ((runCreates o cwd ys (runCreates o cwd xs fs).1).1,
        (runCreates o cwd xs fs).2 ++ (runCreates o cwd ys (runCreates o cwd xs fs).1).2) := by
  induction xs generalizing fs with
  | nil => simp [runCreates]
  | cons x xs2 ih =>
    simp only [List.cons_append, runCreates]
    cases h : o x fs with
    | some err => simp [h, ih]
    | none => simp [h, ih]

theorem runCreates_length (o : FileToCreate → FS → Option (List Char))
    (cwd : List String) (ops : List FileToCreate) (fs : FS) :
    (runCreates o cwd ops fs).2.length = ops.length := by
  induction ops generalizing fs with
  | nil => rfl
  | cons x xs ih =>
    cases h : o x fs <;> simp [runCreates, h, ih]

theorem runEdits_append (o : FileToEdit → FS → Option (List Char))
    (xs ys : List FileToEdit) (fs : FS) :
    runEdits o (xs ++ ys) fs =
      ((runEdits o ys (runEdits o xs fs).1).1,
        (runEdits o xs fs).2 ++ (runEdits o ys (runEdits o xs fs).1).2) := by
  induction xs generalizing fs with
  | nil => simp [runEdits]
  | cons x xs2 ih =>
    simp only [List.cons_append, runEdits]
    cases h : o x fs with
    | some err => simp [h, ih]
    | none => simp [h, ih, editResultMsg_ne_nil]

theorem runEdits_length (o : FileToEdit → FS → Option (List Char))
    (ops : List FileToEdit) (fs : FS) :
    (runEdits o ops fs).2.length = ops.length := by
  induction ops generalizing fs with
  | nil => rfl
  | cons x xs ih =>
    cases h : o x fs <;> simp [runEdits, h, ih, editResultMsg_ne_nil]

/-- C4: a failure (exception) while processing one create or edit operation
does not prevent the remaining operations from running: the report list
decomposes into the reports of the items before the failing one, the
per-item error for the failing one, and the reports of every later create
and edit, and every operation yields exactly one report. -/
theorem claim_c4_partial_failure :
    (∀ (oc : FileToCreate → FS → Option (List Char))
        (oe : FileToEdit → FS → Option (List Char)) (cwd : List String)
        (xs ys : List FileToCreate) (edits : List FileToEdit) (fs : FS)
        (y : FileToCreate) (e : List Char),
      oc y (runCreates oc cwd xs fs).1 = some e →
        (handleFileOps oc oe cwd (xs ++ y :: ys) edits fs).2 =
          (runCreates oc cwd xs fs).2
            ++ OpReport.createError (rewriteCreatePath cwd y.path) e
            :: ((runCreates oc cwd ys (runCreates oc cwd xs fs).1).2
              ++ (runEdits oe edits
                    (runCreates oc cwd ys (runCreates oc cwd xs fs).1).1).2) ∧
        (handleFileOps oc oe cwd (xs ++ y :: ys) edits fs).2.length =
          xs.length + 1 + ys.length + edits.length) ∧
    (∀ (oc : FileToCreate → FS → Option (List Char))
        (oe : FileToEdit → FS → Option (List Char)) (cwd : List String)
        (creates : List FileToCreate) (xs ys : List FileToEdit) (fs : FS)
        (y : FileToEdit) (e : List Char),
      oe y (runEdits oe xs (runCreates oc cwd creates fs).1).1 = some e →
        (handleFileOps oc oe cwd creates (xs ++ y :: ys) fs).2 =
          (runCreates oc cwd creates fs).2
            ++ ((runEdits oe xs (runCreates oc cwd creates fs).1).2
              ++ OpReport.editError y.path e
              :: (runEdits oe ys
                    (runEdits oe xs (runCreates oc cwd creates fs).1).1).2) ∧
        (handleFileOps oc oe cwd creates (xs ++ y :: ys) fs).2.length =
          creates.length + (xs.length + 1 + ys.length)) := by
  constructor
  · intro oc oe cwd xs ys edits fs y e hy
    constructor
    · simp only [handleFileOps, runCreates_append]
      simp only [runCreates, hy]
      simp
    · simp [handleFileOps, runCreates_length, runEdits_length]
      omega
  · intro oc oe cwd creates xs ys fs y e hy
    constructor
    · simp only [handleFileOps, runEdits_append]
      simp [runEdits, hy]
    · simp [handleFileOps, runCreates_length, runEdits_length]
      omega

theorem claim_c4_partial_failure_witness :
    (handleFileOps alwaysRaise neverRaiseE [] ([] ++ opCreate0 :: [opCreate1])
        [opNoSnippet] fsHello).2 =
      (runCreates alwaysRaise [] [] fsHello).2
        ++ OpReport.createError (rewriteCreatePath [] opCreate0.path) "boom".data
        :: ((runCreates alwaysRaise [] [opCreate1]
              (runCreates alwaysRaise [] [] fsHello).1).2
          ++ (runEdits neverRaiseE [opNoSnippet]
                (runCreates alwaysRaise [] [opCreate1]
                  (runCreates alwaysRaise [] [] fsHello).1).1).2) ∧
    (handleFileOps alwaysRaise neverRaiseE [] ([] ++ opCreate0 :: [opCreate1])
        [opNoSnippet] fsHello).2.length = 0 + 1 + 1 + 1 :=
  claim_c4_partial_failure.1 alwaysRaise neverRaiseE [] [] [opCreate1]
    [opNoSnippet] fsHello opCreate0 "boom".data (by decide)

theorem jsonValid_of_proper_prefix (l R : List Char)
    (h : l ++ R = STarget) (hne : l ≠ STarget) : jsonValid l = false := by
  have hR : R ≠ [] := by
    intro h0
    apply hne
    simpa [h0] using h
  have hlen : l.length + R.length = 23 := by
    have := congrArg List.length h
    simpa [sTarget_length] using this
  have hpos : 0 < R.length := List.length_pos.mpr hR
  have hlt : l.length < 23 := by omega
  have hl : l = STarget.take l.length := by
    rw [← h, List.take_left]
  rw [hl]
  exact jsonValid_sTarget_take l.length hlt

theorem streamInv_step (P t R : List Char) (s : StreamState)
    (hinv : StreamInv P s) (heq : P ++ t ++ R = STarget) :
    StreamInv (P ++ t) (streamStep s t) := by
  rcases hinv with ⟨hP, hjs, hjc, hh⟩ | ⟨hPne, hPneS, hjs, hjc, hh⟩ | ⟨hP, hcase⟩
  · subst hP
    simp only [List.nil_append] at heq ⊢
    cases t with
    | nil =>
      have hstep : streamStep s [] = { s with plain := s.plain ++ [[]] } := by
        simp [streamStep, hjs, pyStrip, startsWithBrace]
      rw [hstep]
      exact Or.inl ⟨rfl, hjs, hjc, hh⟩
    | cons c t2 =>
      have hmem : ∀ x ∈ c :: t2, x ∈ STarget := by
        intro x hx
        rw [← heq]
        exact List.mem_append.mpr (Or.inl hx)
      have hstrip : pyStrip (c :: t2) = c :: t2 :=
        pyStrip_eq_self _ (fun x hx => sTarget_no_ws x (hmem x hx))
      have hc : c = '\x7b' := by
        have h1 : some c = STarget.head? := by
          rw [← heq]
          rfl
        have h2 : STarget.head? = some '\x7b' := by decide
        rw [h2] at h1
        injection h1 with h3
      have hcond : startsWithBrace (pyStrip (c :: t2)) = true := by
        rw [hstrip, hc]
        rfl
      have hstep : streamStep s (c :: t2) =
          { s with json_started := true, json_content := c :: t2 } := by
        simp [streamStep, hjs, hcond]
      rw [hstep]
      by_cases hS : c :: t2 = STarget
      · exact Or.inr (Or.inr ⟨hS, Or.inr ⟨rfl, hS, hh⟩⟩)
      · exact Or.inr (Or.inl ⟨List.cons_ne_nil c t2, hS, rfl, rfl, hh⟩)
  · have hjs2 : (!s.json_started && startsWithBrace (pyStrip t)) = false := by
      rw [hjs]
      rfl
    by_cases hS : P ++ t = STarget
    · have hv : jsonValid (s.json_content ++ t) = true := by
        rw [hjc, hS]
        exact jsonValid_sTarget
      have hstep : streamStep s t =
          { s with json_started := false, json_content := [],
                   handled := s.handled ++ [s.json_content ++ t] } := by
        simp [streamStep, hjs2, hjs, hv]
      rw [hstep]
      refine Or.inr (Or.inr ⟨hS, Or.inl ⟨rfl, rfl, ?_⟩⟩)
      rw [hh, hjc, hS]
      rfl
    · have hv : jsonValid (s.json_content ++ t) = false := by
        rw [hjc]
        exact jsonValid_of_proper_prefix (P ++ t) R heq hS
      have hstep : streamStep s t = { s with json_content := s.json_content ++ t } := by
        simp [streamStep, hjs2, hjs, hv]
      rw [hstep]
      refine Or.inr (Or.inl ⟨?_, hS, hjs, by rw [hjc], hh⟩)
      intro h0
      exact hPne (List.append_eq_nil.mp h0).1
  · subst hP
    have ht : t = [] := by
      have hlen := congrArg List.length heq
      simp only [List.length_append, sTarget_length] at hlen
      have : t.length = 0 := by omega
      exact List.length_eq_zero.mp this
    subst ht
    rw [List.append_nil]
    rcases hcase with ⟨hjs, hjc, hh⟩ | ⟨hjs, hjc, hh⟩
    · have hstep : streamStep s [] = { s with plain := s.plain ++ [[]] } := by
        simp [streamStep, hjs, pyStrip, startsWithBrace]
      rw [hstep]
      exact Or.inr (Or.inr ⟨rfl, Or.inl ⟨hjs, hjc, hh⟩⟩)
    · have hjs2 : (!s.json_started && startsWithBrace (pyStrip [])) = false := by
        rw [hjs]
        rfl
      have hv : jsonValid s.json_content = true := by
        rw [hjc]
        exact jsonValid_sTarget
      have hstep : streamStep s [] =
          { s with json_started := false, json_content := [],
                   handled := s.handled ++ [s.json_content] } := by
        simp [streamStep, hjs2, hjs, hv]
      rw [hstep]
      refine Or.inr (Or.inr ⟨rfl, Or.inl ⟨rfl, rfl, ?_⟩⟩)
      rw [hh, hjc]
      simp

theorem streamInv_fold (ts : List (List Char)) :
    ∀ (P : List Char) (s : StreamState), StreamInv P s → P ++ ts.flatten = STarget →
      StreamInv STarget (ts.foldl streamStep s) := by
  induction ts with
  | nil =>
    intro P s hinv heq
    simp at heq
    subst heq
    simpa using hinv
  | cons t rest ih =>
    intro P s hinv heq
    have heq2 : (P ++ t) ++ rest.flatten = STarget := by
      simpa [List.append_assoc] using heq
    exact ih (P ++ t) (streamStep s t) (streamInv_step P t rest.flatten s hinv heq2) heq2

/-- C1: for every finite token sequence whose concatenation is the object
`STarget`, running the incremental JSON extraction loop over
the tokens in order hands `handle_assistant_response` exactly one buffer,
whose content is exactly that object — wherever the token boundaries fall,
including the whole object arriving as a single token — and that buffer
parses, so the handler completes. -/
theorem claim_c1_exactly_once (ts : List (List Char)) (h : ts.flatten = STarget) :
    allHandled ts = [STarget] ∧
    handleAssistantParse STarget = HandlerOutcome.completed STarget := by
  have hinv0 : StreamInv [] initStream := Or.inl ⟨rfl, rfl, rfl, rfl⟩
  have hfin := streamInv_fold ts [] initStream hinv0 (by simpa using h)
  constructor
  · rcases hfin with ⟨hP, _⟩ | ⟨_, hne, _⟩ | ⟨_, hcase⟩
    · exact absurd hP (by decide)
    · exact absurd rfl hne
    · rcases hcase with ⟨hjs, hjc, hh⟩ | ⟨hjs, hjc, hh⟩
      · simp [allHandled, finalHandled, runStream, hjs, hh]
      · simp [allHandled, finalHandled, runStream, hjs, hjc, hh]
        decide
  · simp [handleAssistantParse, jsonValid_sTarget]

theorem claim_c1_exactly_once_witness :
    allHandled ["\x7b\"assistant".data, "_reply\":\"x\"\x7d".data] = [STarget] ∧
    handleAssistantParse STarget = HandlerOutcome.completed STarget :=
  claim_c1_exactly_once ["\x7b\"assistant".data, "_reply\":\"x\"\x7d".data] (by decide)

end DeepThink
